import Mathlib

/-!
Verification of the `config` package (a textual configuration-format codec):
a shallow embedding of its scanner, scope parser, value-coercion engine,
decoder construction and structural encoder, together with theorems that
settle the specification claims against the code.

Strings from the source are modelled as `List Char`; Go byte-oriented
operations act on ASCII data in every claim considered here, where byte and
character indexing coincide.
-/

namespace Config

instance {ε α : Type} [DecidableEq ε] [DecidableEq α] : DecidableEq (Except ε α) :=
  fun a b =>
  match a, b with
  | .ok x, .ok y =>
    if h : x = y then .isTrue (by rw [h]) else .isFalse (by intro hh; cases hh; exact h rfl)
  | .error x, .error y =>
    if h : x = y then .isTrue (by rw [h]) else .isFalse (by intro hh; cases hh; exact h rfl)
  | .ok _, .error _ => .isFalse (by intro hh; cases hh)
  | .error _, .ok _ => .isFalse (by intro hh; cases hh)

/-! ## Character utilities (from `parser.go` / `decode.go` / `encode.go`) -/

/-- `isWhiteSp` from parser.go: true for bytes 9..13 and 32. -/
def isWhiteSp (c : Char) : Bool :=
  (9 ≤ c.toNat && c.toNat ≤ 13) || c.toNat = 32

/-- The character class `\s` of Go's regexp package: `[\t\n\f\r ]`
(bytes 9, 10, 12, 13, 32 — unlike `isWhiteSp` it excludes 11). -/
def isRegexWS (c : Char) : Bool :=
  c.toNat = 9 || c.toNat = 10 || c.toNat = 12 || c.toNat = 13 || c.toNat = 32

/-- `isUpper` from decode.go. -/
def isUpper (c : Char) : Bool := 'A' ≤ c && c ≤ 'Z'

/-- `isLower` from decode.go. -/
def isLower (c : Char) : Bool := 'a' ≤ c && c ≤ 'z'

/-- `isNumber` from decode.go. -/
def isNumber (c : Char) : Bool := '0' ≤ c && c ≤ '9'

/-- The character class `\w` of Go's regexp package: `[0-9A-Za-z_]`. -/
def isWordChar (c : Char) : Bool :=
  isUpper c || isLower c || isNumber c || c = '_'

/-- A character of the key class `[\w\.]` used by the keyval / heredoc /
multiline patterns. -/
def isKeyChar (c : Char) : Bool := isWordChar c || c = '.'

/-- `lower` from decode.go: ASCII lower-casing of one character. -/
def lowerChar (c : Char) : Char :=
  if 'A' ≤ c && c ≤ 'Z' then Char.ofNat (c.toNat + 32) else c

/-- `upper` from encode.go: ASCII upper-casing of one character. -/
def upperChar (c : Char) : Char :=
  if 'a' ≤ c && c ≤ 'z' then Char.ofNat (c.toNat - 32) else c

/-- `toLower` from decode.go. -/
def toLower (s : List Char) : List Char := s.map lowerChar

/-- `toUpper` from encode.go. -/
def toUpper (s : List Char) : List Char := s.map upperChar

/-- `isPublic` from decode.go: a field name is public when its first byte is
an upper-case ASCII letter.  (The source indexes `s[0]` unconditionally; an
empty field name cannot occur for a Go struct field.) -/
def isPublic (s : List Char) : Bool :=
  match s with
  | [] => false
  | c :: _ => isUpper c

/-- `rtrim` from parser.go: trim trailing white space (class `isWhiteSp`). -/
def rtrimL (s : List Char) : List Char :=
  (s.reverse.dropWhile isWhiteSp).reverse

/-- `trim` from parser.go: trim leading and trailing white space. -/
def trimL (s : List Char) : List Char :=
  (rtrimL s).dropWhile isWhiteSp

/-! ## Models of Go standard-library numeric parsing

These model the `strconv` routines the coercion engine calls.  `Atoi` /
`ParseInt` / `ParseUint` with explicit base 10 accept an optional sign
(`ParseUint` accepts none), then one or more decimal digits, and fail with
a range error when the value does not fit the bit size.  Error values are
modelled by the distinguishing suffix of the Go error message
("invalid syntax" / "value out of range"). -/

def digitsToNatGo : Nat → List Char → Nat
  | acc, [] => acc
  | acc, c :: rest => digitsToNatGo (10 * acc + (c.toNat - 48)) rest

def digitsToNat (ds : List Char) : Nat := digitsToNatGo 0 ds

/-- Decimal digit-string. -/
def allDigits (ds : List Char) : Bool := !ds.isEmpty && ds.all isNumber

/-- Model of `strconv.Atoi` = `strconv.ParseInt(s, 10, 64)`:
optional `+`/`-` sign, then decimal digits, result within the `int64` range. -/
def goAtoi (s : List Char) : Except String Int :=
  let (neg, ds) : Bool × List Char :=
    match s with
    | '-' :: t => (true, t)
    | '+' :: t => (false, t)
    | t => (false, t)
  if allDigits ds then
    let v : Int := if neg then -(digitsToNat ds : Int) else (digitsToNat ds : Int)
    if v < -(2 ^ 63 : Int) || (2 ^ 63 : Int) ≤ v then .error "value out of range"
    else .ok v
  else .error "invalid syntax"

/-- Model of `strconv.ParseUint(s, 10, 64)`: no sign permitted, decimal
digits, result within the `uint64` range. -/
def goParseUint64 (s : List Char) : Except String Nat :=
  if allDigits s then
    let v := digitsToNat s
    if v < 2 ^ 64 then .ok v else .error "value out of range"
  else .error "invalid syntax"

/-! ## Value coercion engine (`iFix`, `floatFix`, `set_int`, …) -/

/-- `strings.Replace(s, ",", "", -1)`: remove every comma. -/
def removeCommas (s : List Char) : List Char := s.filter (· ≠ ',')

/-- `iFix` from decode.go: for strings of length at least 2, remove grouping
commas and replace a final `K`/`M`/`G`/`T`/`P`/`E` by the matching run of
literal zero digits; shorter strings are returned unchanged.
(When comma removal leaves the string empty — a reachable case: an
all-comma raw value such as `,,` of length at least 2 — the Go source
indexes `s[-1]` and panics at runtime.  The total model returns the empty
string there; every theorem about `iFix` therefore carries a hypothesis
that keeps it outside this divergent region, either requiring the
comma-stripped string to have a last character or requiring the subsequent
parse to succeed.) -/
def iFix (s : List Char) : List Char :=
  if s.length < 2 then s
  else
    let s := removeCommas s
    match s.getLast? with
    | none => s
    | some c =>
      let p := s.dropLast
      match c with
      | 'K' => p ++ ("000".data)
      | 'M' => p ++ ("000000".data)
      | 'G' => p ++ ("000000000".data)
      | 'T' => p ++ ("000000000000".data)
      | 'P' => p ++ ("000000000000000".data)
      | 'E' => p ++ ("000000000000000000".data)
      | _ => s

/-- `reflect.Value.OverflowInt` for a signed destination of width `w` bits:
true when `v` does not fit `[-2^(w-1), 2^(w-1) - 1]`. -/
def overflowInt (w : Nat) (v : Int) : Bool :=
  v < -((2 : Int) ^ (w - 1)) || ((2 : Int) ^ (w - 1)) ≤ v

/-- `reflect.Value.OverflowUint` for an unsigned destination of width `w`
bits: true when `v` does not fit `[0, 2^w - 1]`. -/
def overflowUint (w : Nat) (v : Nat) : Bool :=
  (2 : Nat) ^ w ≤ v

/-- `set_int` from decode.go, for the narrow destinations
`int8`/`int16`/`int32` (width `w`): run `iFix`, parse with `Atoi`, and
re-check the parsed value against the destination range, failing with
"Overflow" when out of range.  Returns the stored value. -/
def set_int (w : Nat) (val : List Char) : Except String Int :=
  match goAtoi (iFix val) with
  | .error e => .error e
  | .ok v => if overflowInt w v then .error "Overflow" else .ok v

/-- `set_int64` from decode.go (destinations `int`/`int64`):
`strconv.ParseInt(iFix(val), 10, 64)` with no further width check. -/
def set_int64 (val : List Char) : Except String Int :=
  goAtoi (iFix val)

/-- `set_uint` from decode.go, for the narrow destinations
`uint8`/`uint16`/`uint32` (width `w`): run `iFix`, parse with `Atoi`
(signed 64-bit), convert with Go's `uint64(v)` two's-complement cast, and
re-check against the destination range, failing with "Overflow". -/
def set_uint (w : Nat) (val : List Char) : Except String Nat :=
  match goAtoi (iFix val) with
  | .error e => .error e
  | .ok v =>
    let x : Nat := (v % (2 ^ 64 : Int)).toNat
    if overflowUint w x then .error "Overflow" else .ok x

/-- `set_uint64` from decode.go (destinations `uint`/`uint64`). -/
def set_uint64 (val : List Char) : Except String Nat :=
  goParseUint64 (iFix val)

/-- `set_bool` from decode.go: case-insensitive; the recognised true tokens
set the destination true, the false tokens set it false, anything else
leaves it unchanged (returns `none`). -/
def set_bool (val : List Char) : Option Bool :=
  let v := toLower val
  if v = "true".data || v = "yes".data || v = "on".data || v = "1".data then
    some true
  else if v = "false".data || v = "no".data || v = "off".data || v = "0".data then
    some false
  else none

/-- Exponent part of the `strconv.ParseFloat` model: optional sign, then
decimal digits. -/
def goParseFloatExp (mant : ℚ) (u : List Char) : Except String ℚ :=
  let (eneg, ed) : Bool × List Char :=
    match u with
    | '-' :: w => (true, w)
    | '+' :: w => (false, w)
    | w => (false, w)
  if allDigits ed then
    let e := digitsToNat ed
    .ok (if eneg then mant / ((10 : ℚ) ^ e) else mant * ((10 : ℚ) ^ e))
  else .error "invalid syntax"

/-- Model of `strconv.ParseFloat` restricted to finite decimal literals:
optional sign, decimal digits with an optional fractional part (digits are
required on at least one side of the dot), and an optional `e`/`E` exponent
with optional sign.  The exact value is returned as a rational; rounding to
the destination float width, the `Inf`/`NaN` spellings, hexadecimal floats
and digit-separating underscores are outside the fragment the claims
exercise and are not modelled (the bit-size argument is kept for fidelity
but does not affect the exact rational result). -/
def goParseFloat (s : List Char) : Except String ℚ :=
  let (neg, t) : Bool × List Char :=
    match s with
    | '-' :: t => (true, t)
    | '+' :: t => (false, t)
    | t => (false, t)
  -- mantissa: digits [ '.' digits ]
  let ip := t.takeWhile isNumber
  let rest := t.drop ip.length
  let (fp, rest2) : List Char × List Char :=
    match rest with
    | '.' :: u => (u.takeWhile isNumber, u.drop (u.takeWhile isNumber).length)
    | u => ([], u)
  if ip.isEmpty && fp.isEmpty then .error "invalid syntax"
  else
    let mant : ℚ := (digitsToNat ip : ℚ) + (digitsToNat fp : ℚ) / ((10 : ℚ) ^ fp.length)
    let withExp : Except String ℚ :=
      match rest2 with
      | [] => .ok mant
      | 'e' :: u => goParseFloatExp mant u
      | 'E' :: u => goParseFloatExp mant u
      | _ => .error "invalid syntax"
    match withExp with
    | .error e => .error e
    | .ok v => .ok (if neg then -v else v)

/-- `floatFix` from decode.go: empty string yields 0 with no error; a
one-character string is parsed directly; otherwise commas are removed and a
trailing `K`/`M`/`G`/`T`/`P`/`E` multiplies the parsed numeric prefix by
the matching power of ten, a trailing digit means the whole string is
parsed, and any other trailing character (with a parseable prefix) fails
with "Invalid numeric abbreviation".  (The bit-size argument `b` of the Go
function selects float32/float64 rounding, which the exact rational model
does not apply.)  When comma removal leaves the string empty the Go source
would index `s[-1]` and panic; that case is mapped to a syntax error
here. -/
def floatFix (s : List Char) : Except String ℚ :=
  if s.length = 0 then .ok 0
  else if s.length = 1 then goParseFloat s
  else
    let s := removeCommas s
    match s.getLast? with
    | none => .error "invalid syntax"
    | some c =>
      if isNumber c then goParseFloat s
      else
        match goParseFloat s.dropLast with
        | .error e => .error e
        | .ok v =>
          match c with
          | 'K' => .ok (v * 1000)
          | 'M' => .ok (v * 1000000)
          | 'G' => .ok (v * 1000000000)
          | 'T' => .ok (v * 1000000000000)
          | 'P' => .ok (v * 1000000000000000)
          | 'E' => .ok (v * 1000000000000000000)
          | _ => .error "Invalid numeric abbreviation"

/-- `set_float` from decode.go: both float widths defer to `floatFix`
(width only selects the rounding bit size, which the rational model keeps
exact). -/
def set_float (val : List Char) : Except String ℚ :=
  floatFix val

/-! ## Time coercion (`set_time`)

The five layout constants of parser.go, plus the empty layout that
`set_time` passes to `time.Parse` for any other input length. -/

inductive TimeLayout where
  | utc_date   -- "2006-01-02 15:04:05 -0700", length 25
  | date_time  -- "2006-01-02 15:04:05", length 19
  | utc_time   -- "15:04:05 -0700", length 14
  | date_fmt   -- "2006-01-02", length 10
  | time_fmt   -- "15:04:05", length 8
  | emptyLayout
  deriving DecidableEq, Repr

/-- A parsed Go `time.Time`, restricted to the components the five layouts
produce.  Fields missing from a layout default as `time.Parse` defaults
them: year 0, month 1, day 1, zero clock, zero offset. -/
structure GoTime where
  year : Nat
  month : Nat
  day : Nat
  hour : Nat
  minute : Nat
  second : Nat
  offMinutes : Int
  deriving DecidableEq, Repr

def GoTime.zero : GoTime := ⟨0, 1, 1, 0, 0, 0, 0⟩

/-- Two fixed decimal digits. -/
def twoDigits : List Char → Option (Nat × List Char)
  | a :: b :: rest =>
    if isNumber a && isNumber b then some (digitsToNat [a, b], rest) else none
  | _ => none

/-- Four fixed decimal digits (the year of layout `2006`). -/
def fourDigits : List Char → Option (Nat × List Char)
  | a :: b :: c :: d :: rest =>
    if isNumber a && isNumber b && isNumber c && isNumber d then
      some (digitsToNat [a, b, c, d], rest)
    else none
  | _ => none

/-- One literal character. -/
def lit (c : Char) : List Char → Option (List Char)
  | x :: rest => if x = c then some rest else none
  | _ => none

/-- Days in a month, with the Gregorian leap rule (Go rejects a day that is
out of range for the parsed month). -/
def daysInMonth (year month : Nat) : Nat :=
  if month = 2 then
    if year % 4 = 0 && (year % 100 ≠ 0 || year % 400 = 0) then 29 else 28
  else if month = 4 || month = 6 || month = 9 || month = 11 then 30
  else 31

/-- Clock part `15:04:05`. -/
def parseClock (s : List Char) : Option ((Nat × Nat × Nat) × List Char) := do
  let (h, s) ← twoDigits s
  let s ← lit ':' s
  let (m, s) ← twoDigits s
  let s ← lit ':' s
  let (sec, s) ← twoDigits s
  if h ≤ 23 && m ≤ 59 && sec ≤ 59 then some ((h, m, sec), s) else none

/-- Date part `2006-01-02`. -/
def parseDate (s : List Char) : Option ((Nat × Nat × Nat) × List Char) := do
  let (y, s) ← fourDigits s
  let s ← lit '-' s
  let (mo, s) ← twoDigits s
  let s ← lit '-' s
  let (d, s) ← twoDigits s
  if 1 ≤ mo && mo ≤ 12 && 1 ≤ d && d ≤ daysInMonth y mo then
    some ((y, mo, d), s)
  else none

/-- Offset part ` -0700` (including the leading space of the layouts). -/
def parseOffset (s : List Char) : Option (Int × List Char) := do
  let s ← lit ' ' s
  match s with
  | sign :: rest =>
    if sign = '+' || sign = '-' then do
      let (oh, rest) ← twoDigits rest
      let (om, rest) ← twoDigits rest
      if om ≤ 59 then
        let total : Int := (oh * 60 + om : Nat)
        some ((if sign = '-' then -total else total), rest)
      else none
    else none
  | _ => none

/-- Model of `time.Parse` for the six layouts `set_time` can select.
The empty layout succeeds exactly on the empty string, yielding the
all-defaults time (this is Go behaviour: an exhausted layout with input
remaining is an "extra text" error, and an empty input parses to the
zero-ish default time). -/
def goTimeParse (fmt : TimeLayout) (val : List Char) : Except String GoTime :=
  let done : Option GoTime → Except String GoTime := fun r =>
    match r with
    | some t => .ok t
    | none => .error "cannot parse"
  match fmt with
  | .emptyLayout => if val.isEmpty then .ok GoTime.zero else .error "extra text"
  | .time_fmt => done do
    let ((h, m, sec), s) ← parseClock val
    if s.isEmpty then some { GoTime.zero with hour := h, minute := m, second := sec }
    else none
  | .date_fmt => done do
    let ((y, mo, d), s) ← parseDate val
    if s.isEmpty then some { GoTime.zero with year := y, month := mo, day := d }
    else none
  | .utc_time => done do
    let ((h, m, sec), s) ← parseClock val
    let (off, s) ← parseOffset s
    if s.isEmpty then
      some { GoTime.zero with hour := h, minute := m, second := sec, offMinutes := off }
    else none
  | .date_time => done do
    let ((y, mo, d), s) ← parseDate val
    let s ← lit ' ' s
    let ((h, m, sec), s) ← parseClock s
    if s.isEmpty then some ⟨y, mo, d, h, m, sec, 0⟩ else none
  | .utc_date => done do
    let ((y, mo, d), s) ← parseDate val
    let s ← lit ' ' s
    let ((h, m, sec), s) ← parseClock s
    let (off, s) ← parseOffset s
    if s.isEmpty then some ⟨y, mo, d, h, m, sec, off⟩ else none

/-- The layout-by-length switch of `set_time` in decode.go. -/
def timeLayoutOfLength (n : Nat) : TimeLayout :=
  if n = 25 then .utc_date
  else if n = 19 then .date_time
  else if n = 14 then .utc_time
  else if n = 10 then .date_fmt
  else if n = 8 then .time_fmt
  else .emptyLayout

/-- `set_time` from decode.go: select the textual layout solely from the
raw string's length, then parse. -/
def set_time (val : List Char) : Except String GoTime :=
  goTimeParse (timeLayoutOfLength val.length) val

/-- `newError` from decode.go: attach a (positive) line number. -/
def newError (msg : String) (no : Nat) : String :=
  if no > 0 then msg ++ " at line " ++ toString no else msg

/-- The call site in `iterateStructFields` (decode.go): a found raw value is
converted by `set_time`, and a conversion failure is wrapped with the source
line of the raw entry. -/
def decodeTimeField (val : List Char) (lineno : Nat) : Except String GoTime :=
  match set_time val with
  | .ok t => .ok t
  | .error e => .error (newError e lineno)

/-! ## Decoder construction (`NewDecoder`, decode.go)

The destination of a decode is either a string-keyed map, a map with some
other key kind, a pointer to a struct, or anything else; this is the exact
case split of `NewDecoder`'s switch on `reflect` kinds.  A panic is
modelled as `.error` carrying the panic message. -/

inductive DecodeDest where
  | mapDest (stringKeys : Bool)
  | structPtr
  | otherDest
  deriving DecidableEq, Repr

/-- Option bit constants from decode.go (successive `iota` bits). -/
def ALLOW_SNAKE_CASE : Nat := 1
def IGNORE_CASE : Nat := 2
def PARSE_LOWER_CASE : Nat := 4
def ENCODE_SNAKE_CASE : Nat := 8
def ENCODE_LOWER_CASE : Nat := 16
def ENCODE_ZERO_VALUES : Nat := 32
def OVERWRITE_FILE : Nat := 64

/-- `isOption` from parser.go: `option == option & options`. -/
def isOption (option options : Nat) : Bool :=
  option = Nat.land option options

/-- `(*Decoder).allowedOption` from decode.go. -/
def decoderAllowedOption (option : Nat) : Bool :=
  option = Nat.land option
    (Nat.lor ALLOW_SNAKE_CASE (Nat.lor ENCODE_SNAKE_CASE (Nat.lor IGNORE_CASE ENCODE_LOWER_CASE)))

/-- The state `NewDecoder` establishes: the `isMap` flag and the stored
`options` word. -/
structure DecoderInit where
  isMap : Bool
  options : Nat
  deriving DecidableEq, Repr

/-- `NewDecoder` from decode.go.  For a map destination it validates only
the key kind and returns immediately — before the option-validation block —
so `options` is left at its zero value.  For a struct pointer the first
option is validated and stored, panicking ("Option not allowed") when it
contains a disallowed bit.  Any other destination panics. -/
def NewDecoder (dest : DecodeDest) (options : List Nat) : Except String DecoderInit :=
  match dest with
  | .mapDest stringKeys =>
    if !stringKeys then .error "Expecting map with string keys"
    else .ok ⟨true, 0⟩
  | .otherDest => .error "Expecting pointer to a struct or a map"
  | .structPtr =>
    match options with
    | [] => .ok ⟨false, 0⟩
    | o :: _ =>
      if !decoderAllowedOption o then .error "Option not allowed"
      else .ok ⟨false, o⟩

/-! ## Scanner (parser.go)

The input stream is modelled as its list of physical lines: Go's
`bufio.Reader.ReadBytes('\n')` yields each newline-terminated chunk, plus a
final unterminated chunk when the data does not end in a newline; the
newline itself is dropped here, which is invisible because every consumer
immediately trims it away (`trim` / `rtrim` / `trim` on the heredoc
terminator). -/

def physLinesGo : List Char → List Char → List (List Char)
  | [], acc => if acc.isEmpty then [] else [acc.reverse]
  | c :: rest, acc =>
    if c = '\n' then acc.reverse :: physLinesGo rest []
    else physLinesGo rest (c :: acc)

def physLines (s : List Char) : List (List Char) := physLinesGo s []

/-- The use of the `comment` pattern `([^#]*)[#]` in `nextLine`: when the
line contains a `#`, keep only the prefix before the first `#`. -/
def commentStrip (s : List Char) : List Char :=
  if s.contains '#' then s.takeWhile (· ≠ '#') else s

/-- `nextLine` from parser.go: read physical lines (each read increments the
line counter, including lines later skipped), strip a `#` comment, trim, and
skip the line when it becomes empty.  Returns `none` at end of input,
together with the final line counter. -/
def nextLine : List (List Char) → Nat → Option (List Char × List (List Char)) × Nat
  | [], n => (none, n)
  | l :: rest, n =>
    let s := trimL (commentStrip l)
    if s.isEmpty then nextLine rest (n + 1) else (some (s, rest), n + 1)

/-! ## The grammar patterns of parser.go, as recognition functions

Each function models the corresponding compiled regular expression exactly,
including Go's leftmost-first (Perl-style) backtracking preferences where
they are observable through the captured groups. -/

/-- A character of the class `[=:\s]`. -/
def isSepChar (c : Char) : Bool := isRegexWS c || c = '=' || c = ':'

def qtC : Char := '"'

/-- The non-whitespace characters of a candidate separator segment. -/
def sepNonWs (u : List Char) : List Char := u.filter (fun c => !isRegexWS c)

/-- Whether a segment matches `\s*[=:\s]\s*` in its entirety: nonempty, and
all whitespace except for at most one `=` or `:`. -/
def sepSegValid (u : List Char) : Bool :=
  !u.isEmpty && (sepNonWs u = [] || sepNonWs u = ['='] || sepNonWs u = [':'])

/-- `open_brace`: `^([\w]+)\s*[=:\s]\s*{`.  The key class has no dot.  Since
word characters and separator characters are disjoint, the key is exactly
the maximal word prefix, and only the first `{` can terminate a valid
separator segment. -/
def matchOpenBrace (s : List Char) : Option (List Char) :=
  let w := s.takeWhile isWordChar
  if w.isEmpty then none
  else
    let r := s.drop w.length
    let u := r.takeWhile (· ≠ '{')
    if u.length = r.length then none
    else if sepSegValid u then some w else none

/-- `close_brace`: `^\s*}`. -/
def matchCloseBrace (s : List Char) : Bool :=
  (s.dropWhile isRegexWS).head? = some '}'

/-- Backtracking loop for the tail `\s*[=:\s]\s*(.+)` of the `keyval`
pattern applied to remainder `r`: `aLen` is the number of characters the
first `\s*` currently consumes (started at the maximal whitespace run and
decreased on failure, exactly the preference order of a Perl-style
engine); the second `\s*` then takes the longest whitespace run that still
leaves `(.+)` nonempty. -/
def kvTailGo (r : List Char) : Nat → Option (List Char)
  | 0 =>
    match r with
    | x :: rest1 =>
      if isSepChar x then
        if rest1.isEmpty then none
        else some (rest1.drop (min (rest1.takeWhile isRegexWS).length (rest1.length - 1)))
      else none
    | [] => none
  | aLen + 1 =>
    match r.drop (aLen + 1) with
    | x :: rest1 =>
      if isSepChar x then
        if rest1.isEmpty then kvTailGo r aLen
        else some (rest1.drop (min (rest1.takeWhile isRegexWS).length (rest1.length - 1)))
      else kvTailGo r aLen
    | [] => kvTailGo r aLen

def kvTail (r : List Char) : Option (List Char) :=
  kvTailGo r (r.takeWhile isRegexWS).length

/-- `keyval`: `^\s*([\w\.]+)\s*[=:\s]\s*(.+)` on an already-trimmed line.
Returns (key, value). -/
def matchKeyval (s : List Char) : Option (List Char × List Char) :=
  let w := s.takeWhile isKeyChar
  if w.isEmpty then none
  else
    match kvTail (s.drop w.length) with
    | some v => some (w, v)
    | none => none

/-- One attempt of the heredoc tail `\s*[=:\s]\s*<<([\w]+)` at a fixed
first-`\s*` length: after the separator, the second `\s*` must consume the
whole whitespace run (the following literal is `<`, a non-whitespace
character), then `<<` and a nonempty word run for the terminator token. -/
def hdTailAt (r : List Char) (aLen : Nat) : Option (List Char) :=
  match r.drop aLen with
  | x :: rest1 =>
    if isSepChar x then
      match rest1.dropWhile isRegexWS with
      | '<' :: '<' :: rest3 =>
        let code := rest3.takeWhile isWordChar
        if code.isEmpty then none else some code
      | _ => none
    else none
  | [] => none

/-- Backtracking loop over the first-`\s*` length for the heredoc tail. -/
def hdTailGo (r : List Char) : Nat → Option (List Char)
  | 0 => hdTailAt r 0
  | aLen + 1 =>
    match hdTailAt r (aLen + 1) with
    | some c => some c
    | none => hdTailGo r aLen

/-- `heredoc`: `^\s*([\w\.]+)\s*[=:\s]\s*<<([\w]+)` — returns (key, code).
Anything after the token is ignored (the pattern is not right-anchored). -/
def matchHeredoc (s : List Char) : Option (List Char × List Char) :=
  let w := s.takeWhile isKeyChar
  if w.isEmpty then none
  else
    match hdTailGo (s.drop w.length) ((s.drop w.length).takeWhile isRegexWS).length with
    | some code => some (w, code)
    | none => none

/-- One attempt of the multiline tail `\s*[=:\s]\s*(.*)\\$` at a fixed
first-`\s*` length: the remainder must end in a backslash; the second
`\s*` greedily takes the whitespace run, `(.*)` the rest up to the final
backslash. -/
def mlTailAt (r : List Char) (aLen : Nat) : Option (List Char) :=
  match r.drop aLen with
  | x :: rest1 =>
    if isSepChar x then
      if rest1.getLast? = some '\\' then
        some ((rest1.drop (rest1.takeWhile isRegexWS).length).dropLast)
      else none
    else none
  | [] => none

def mlTailGo (r : List Char) : Nat → Option (List Char)
  | 0 => mlTailAt r 0
  | aLen + 1 =>
    match mlTailAt r (aLen + 1) with
    | some c => some c
    | none => mlTailGo r aLen

/-- `multiline`: `^\s*([\w\.]+)\s*[=:\s]\s*(.*)\\$` — returns
(key, first-line content without the trailing backslash). -/
def matchMultiline (s : List Char) : Option (List Char × List Char) :=
  let w := s.takeWhile isKeyChar
  if w.isEmpty then none
  else
    match mlTailGo (s.drop w.length) ((s.drop w.length).takeWhile isRegexWS).length with
    | some c => some (w, c)
    | none => none

/-- `multiline_cont`: `^\s*([^\\]*)\\$` on an already-trimmed line: the line
ends in a backslash and contains no other backslash; the capture drops the
final backslash. -/
def matchMLCont (s : List Char) : Option (List Char) :=
  if s.getLast? = some '\\' && s.dropLast.all (· ≠ '\\') then some s.dropLast
  else none

/-- `quoted`: `^"(.+)"\s*$`: after discarding trailing whitespace the
string starts and ends with a double quote enclosing at least one
character; the capture is the enclosed text. -/
def matchQuoted (s : List Char) : Option (List Char) :=
  let t := (s.reverse.dropWhile isRegexWS).reverse
  if 3 ≤ t.length && t.head? = some qtC && t.getLast? = some qtC then
    some ((t.drop 1).dropLast)
  else none

/-- `include`: `^(?i)include +(\"?[^\"=]*)\"?$`.  The capture group contains
the optional *opening* quote (the group is `\"?[^\"=]*`), while the closing
quote is matched outside the group and dropped. -/
def matchInclude (s : List Char) : Option (List Char) :=
  if 7 ≤ s.length && toLower (s.take 7) = "include".data then
    let r1 := s.drop 7
    let sp := r1.takeWhile (· = ' ')
    if sp.isEmpty then none
    else
      let rr := r1.drop sp.length
      let qpre : List Char := match rr with
        | '"' :: _ => ['"']
        | _ => []
      let rest := rr.drop qpre.length
      let body := rest.takeWhile (fun c => c ≠ '"' && c ≠ '=')
      let tl := rest.drop body.length
      if tl = [] || tl = ['"'] then some (qpre ++ body) else none
  else none

/-- Scan for two adjacent dots. -/
def hasDoubleDot : List Char → Bool
  | '.' :: '.' :: _ => true
  | _ :: rest => hasDoubleDot rest
  | [] => false

/-- `badKey` from parser.go (pattern `^\.|\.$|\.\.|^_$`): leading dot,
trailing dot, adjacent dots, or the bare underscore. -/
def badKey (k : List Char) : Bool :=
  k.head? = some '.' || k.getLast? = some '.' || hasDoubleDot k || k = ['_']

/-! ## The unescape step (`unquote`, parser.go) -/

/-- `strings.Replace(s, tgt, repl, -1)`: replace every non-overlapping
occurrence, left to right. -/
def replaceAllGo : Nat → List Char → List Char → List Char → List Char
  | 0, s, _, _ => s
  | fuel + 1, s, tgt, repl =>
    match s with
    | [] => []
    | c :: rest =>
      if !tgt.isEmpty && tgt.isPrefixOf (c :: rest) then
        repl ++ replaceAllGo fuel ((c :: rest).drop tgt.length) tgt repl
      else
        c :: replaceAllGo fuel rest tgt repl

def replaceAll (s tgt repl : List Char) : List Char :=
  replaceAllGo (s.length + 1) s tgt repl

def hexVal (c : Char) : Option Nat :=
  let n := c.toNat
  if 48 ≤ n && n ≤ 57 then some (n - 48)
  else if 97 ≤ n && n ≤ 102 then some (n - 87)
  else if 65 ≤ n && n ≤ 70 then some (n - 55)
  else none

def hexList (cs : List Char) : Option Nat :=
  cs.foldl (fun acc c => do pure ((← acc) * 16 + (← hexVal c))) (some 0)

def isOctal (c : Char) : Bool := '0' ≤ c && c ≤ '7'

/-- One escape sequence after a backslash, in a double-quoted Go string
(models `strconv.UnquoteChar` with quote `"`): the named single-character
escapes, `\\`, `\"` (but not `\'`), `\xHH` (a byte), `\uXXXX` and
`\UXXXXXXXX` (a rune, rejecting surrogates and values above 10FFFF), and a
three-digit octal byte.  A `\xHH` byte at or above 0x80 is represented as
the character of that code point (Go would append the raw byte). -/
def unquoteEsc : List Char → Option (Char × List Char)
  | 'a' :: rest => some (Char.ofNat 7, rest)
  | 'b' :: rest => some (Char.ofNat 8, rest)
  | 'f' :: rest => some (Char.ofNat 12, rest)
  | 'n' :: rest => some ('\n', rest)
  | 'r' :: rest => some (Char.ofNat 13, rest)
  | 't' :: rest => some ('\t', rest)
  | 'v' :: rest => some (Char.ofNat 11, rest)
  | '\\' :: rest => some ('\\', rest)
  | '"' :: rest => some ('"', rest)
  | 'x' :: h1 :: h2 :: rest => do
    let v ← hexList [h1, h2]
    some (Char.ofNat v, rest)
  | 'u' :: a :: b :: c :: d :: rest => do
    let v ← hexList [a, b, c, d]
    if 0xD800 ≤ v && v ≤ 0xDFFF then none else some (Char.ofNat v, rest)
  | 'U' :: a :: b :: c :: d :: e :: f :: g :: h :: rest => do
    let v ← hexList [a, b, c, d, e, f, g, h]
    if (0xD800 ≤ v && v ≤ 0xDFFF) || 0x10FFFF < v then none
    else some (Char.ofNat v, rest)
  | o1 :: o2 :: o3 :: rest =>
    if isOctal o1 && isOctal o2 && isOctal o3 then
      let v := (o1.toNat - '0'.toNat) * 64 + (o2.toNat - '0'.toNat) * 8 + (o3.toNat - '0'.toNat)
      if v ≤ 255 then some (Char.ofNat v, rest) else none
    else none
  | _ => none

/-- The decoding loop of `strconv.Unquote` over the quote-stripped body
(fuelled; each step consumes at least one character). -/
def unquoteLoop : Nat → List Char → Option (List Char)
  | _, [] => some []
  | 0, _ :: _ => none
  | fuel + 1, '\\' :: rest => do
    let (c, rest') ← unquoteEsc rest
    let t ← unquoteLoop fuel rest'
    pure (c :: t)
  | fuel + 1, c :: rest =>
    if c = qtC || c = '\n' then none
    else do
      let t ← unquoteLoop fuel rest
      pure (c :: t)

/-- Model of `strconv.Unquote(qt + s + qt)`: the body must contain no raw
newline or unescaped quote, and every backslash must begin a valid escape. -/
def goUnquoteBody (s : List Char) : Option (List Char) :=
  unquoteLoop (s.length + 1) s

/-- `unquote` from parser.go: strip boundary quotes when the value is
quote-wrapped, convert literal line feeds to the two-character `\n`,
placeholder embedded quotes as `\x22`, run the Go unquoter, and restore the
placeholders.  On a decode failure the escaped (unrestored-then-restored)
text is returned together with the error
`invalid syntax: Unquote(<content>)`.  (The Go source strips boundary
quotes whenever first and last byte are quotes without a length-2 check; a
one-character value consisting of a single quote would make it panic, which
the model excludes by requiring length ≥ 2.) -/
def unquote (s : List Char) : List Char × Option String :=
  if s.isEmpty then ([], none)
  else
    let s1 :=
      if 2 ≤ s.length && s.head? = some qtC && s.getLast? = some qtC then
        (s.drop 1).dropLast
      else s
    let s2 := replaceAll s1 ['\n'] ['\\', 'n']
    let s3 := replaceAll s2 [qtC] ['\\', 'x', '2', '2']
    match goUnquoteBody s3 with
    | some t => (replaceAll t ['\\', 'x', '2', '2'] [qtC], none)
    | none =>
      (replaceAll s3 ['\\', 'x', '2', '2'] [qtC],
       some ("invalid syntax: Unquote(" ++ s3.asString ++ ")"))

/-! ## Heredoc and multiline readers (parser.go) -/

/-- `readHereDoc` from parser.go: consume raw physical lines (no comment
stripping, no blank-line skipping; the line counter advances per line) until
a line whose trimmed form equals the terminator code; content lines are
right-trimmed and joined with line feeds (via iterated concatenation: a
leading empty content line contributes no separator).  Returns
(content, sawTerminator, remaining lines, line counter). -/
def readHereDoc (code : List Char) : List (List Char) → Nat → List Char →
    List Char × Bool × List (List Char) × Nat
  | [], n, content => (content, false, [], n)
  | l :: rest, n, content =>
    if trimL l = code then (content, true, rest, n + 1)
    else
      let s := rtrimL l
      let content' := if content.isEmpty then s else content ++ '\n' :: s
      readHereDoc code rest (n + 1) content'

/-- The loop of `readMultiLine` from parser.go: keep appending continuation
lines (unwrapping a quote-wrapped segment first) while they end in a
backslash; the first non-continuation line is unwrapped, appended, and ends
the sequence.  End of input appends the EOF error at the current line
counter and stops. -/
def readMultiLineGo : Nat → List Char → List (List Char) → Nat → List String →
    List Char × List (List Char) × Nat × List String
  | 0, content, lines, n, errs => (content, lines, n, errs)
  | fuel + 1, content, lines, n, errs =>
    match nextLine lines n with
    | (none, n') =>
      (content, [], n',
       errs ++ [newError "EOF encountered before multiline termination" n'])
    | (some (s, lines'), n') =>
      match matchMLCont s with
      | none =>
        let s' := match matchQuoted s with | some m => m | none => s
        (content ++ s', lines', n', errs)
      | some inner =>
        let s' := match matchQuoted inner with | some m => m | none => inner
        readMultiLineGo fuel (content ++ s') lines' n' errs

/-- `readMultiLine` from parser.go: the first-line content is unwrapped if
quote-wrapped, then the continuation loop runs. -/
def readMultiLine (fuel : Nat) (content0 : List Char) (lines : List (List Char))
    (n : Nat) (errs : List String) :
    List Char × List (List Char) × Nat × List String :=
  let content := match matchQuoted content0 with | some m => m | none => content0
  readMultiLineGo fuel content lines n errs

/-! ## Scope parser (`recursive_parse`, parser.go) -/

/-- One raw entry of the flat map (`type v` in parser.go; the `isDefined`
and `kind` fields play no role in parsing). -/
structure V where
  val : List Char
  no : Nat
  deriving DecidableEq, Repr

/-- The field map `fMap`, as an association list with Go-map semantics:
insertion replaces an existing binding in place. -/
abbrev FMap := List (List Char × V)

def fExists (m : FMap) (k : List Char) : Bool := m.any (fun p => p.1 = k)

def fInsert (m : FMap) (k : List Char) (v : V) : FMap :=
  if fExists m k then m.map (fun p => if p.1 = k then (k, v) else p)
  else m ++ [(k, v)]

def fLookup (m : FMap) (k : List Char) : Option V :=
  (m.find? (fun p => p.1 = k)).map (·.2)

/-- The internal sentinel `nested` = `"~NESTED~"`. -/
def nestedVal : List Char := "~NESTED~".data

/-- The deferred cleanup of `recursive_parse`: remove nested placeholders
before the map is handed back. -/
def cleanNested (m : FMap) : FMap := m.filter (fun p => p.2.val ≠ nestedVal)

/-- The `keyval` case body of `recursive_parse`'s switch: duplicate check
first, then key validation, then unescaping, then insertion.  Returns the
updated map and error list. -/
def handleKeyval (acc : FMap) (errs : List String) (key val : List Char)
    (n : Nat) : FMap × List String :=
  if fExists acc key then (acc, errs ++ [newError "Duplicate key" n])
  else if badKey key then (acc, errs ++ [newError "Invalid key" n])
  else
    let (v, uerr) := unquote val
    match uerr with
    | some e => (acc, errs ++ [newError e n])
    | none => (fInsert acc key ⟨v, n⟩, errs)

/-- The shared tail of the `heredoc` and `multiline` cases: duplicate check,
unescape, insert (no key validation in these cases). -/
def handleStore (acc : FMap) (errs : List String) (key val : List Char)
    (n : Nat) : FMap × List String :=
  if fExists acc key then (acc, errs ++ [newError "Duplicate key" n])
  else
    let (v, uerr) := unquote val
    match uerr with
    | some e => (acc, errs ++ [newError e n])
    | none => (fInsert acc key ⟨v, n⟩, errs)

/-- The `open_brace` case body of `recursive_parse` after the nested scope
has been parsed: a nested error is recorded at the opening line and the
nested map discarded; otherwise a duplicate parent key is an error with the
map unchanged; otherwise the parent key is bound to the nested sentinel and
every nested entry is merged as `key.<child>` — with plain map assignment,
i.e. overwriting any existing binding without a duplicate check. -/
def mergeBrace (acc : FMap) (errs : List String) (key : List Char)
    (lineno : Nat) (emap : FMap) (err : Option String) : FMap × List String :=
  match err with
  | some e => (acc, errs ++ [newError e lineno])
  | none =>
    if fExists acc key then (acc, errs ++ [newError "Duplicate key" lineno])
    else
      let acc' := fInsert acc key ⟨nestedVal, lineno⟩
      (emap.foldl (fun a p => fInsert a (key ++ '.' :: p.1) p.2) acc', errs)

/-- The scanning state threaded through `recursive_parse`: remaining
physical lines, the line counter, the accumulated error messages (already
formatted with their line numbers) and the include list. -/
structure PSt where
  lines : List (List Char)
  lineno : Nat
  errs : List String
  incl : List (List Char)
  deriving DecidableEq, Repr

/-- `recursive_parse` from parser.go (fuelled; the fuel is an upper bound on
the number of scanning steps and is sufficient whenever it exceeds the
number of remaining physical lines, since every non-terminal step consumes
at least one).  Produces the scope's map (after sentinel cleanup), the
`Missing closing brace` error for an unterminated nested scope, and the
final state. -/
def recursive_parse : Nat → Nat → PSt → FMap → FMap × Option String × PSt
  | 0, _, st, acc => (cleanNested acc, none, st)
  | fuel + 1, depth, st, acc =>
    match nextLine st.lines st.lineno with
    | (none, n') =>
      let st' := { st with lines := [], lineno := n' }
      if depth > 0 then (cleanNested acc, some "Missing closing brace", st')
      else (cleanNested acc, none, st')
    | (some (s, lines'), n') =>
      let st := { st with lines := lines', lineno := n' }
      match matchInclude s with
      | some inc => recursive_parse fuel depth { st with incl := st.incl ++ [inc] } acc
      | none =>
      match matchOpenBrace s with
      | some key =>
        let lineno := st.lineno
        let (emap, err, st') := recursive_parse fuel (depth + 1) st []
        let (acc', errs') := mergeBrace acc st'.errs key lineno emap err
        recursive_parse fuel depth { st' with errs := errs' } acc'
      | none =>
      if matchCloseBrace s then (cleanNested acc, none, st)
      else
      match matchHeredoc s with
      | some (key, code) =>
        let (content, ok, lines2, n2) := readHereDoc code st.lines st.lineno []
        let st := { st with lines := lines2, lineno := n2 }
        if !ok then
          recursive_parse fuel depth
            { st with errs := st.errs ++ [newError "No terminating heredoc code" n2] } acc
        else
          let (acc', errs') := handleStore acc st.errs key content n2
          recursive_parse fuel depth { st with errs := errs' } acc'
      | none =>
      match matchMultiline s with
      | some (key, content0) =>
        let (content, lines2, n2, errs2) :=
          readMultiLine fuel content0 st.lines st.lineno st.errs
        let st := { st with lines := lines2, lineno := n2, errs := errs2 }
        let (acc', errs') := handleStore acc st.errs key content n2
        recursive_parse fuel depth { st with errs := errs' } acc'
      | none =>
      match matchKeyval s with
      | some (key, val) =>
        let (acc', errs') := handleKeyval acc st.errs key val st.lineno
        recursive_parse fuel depth { st with errs := errs' } acc'
      | none =>
        recursive_parse fuel depth
          { st with errs := st.errs ++ [newError "Invalid data" st.lineno] } acc

/-- `getErrors` from parser.go: no errors is success; otherwise the
messages joined by newlines. -/
def getErrors (errs : List String) : Option String :=
  if errs.isEmpty then none else some (String.intercalate "\n" errs)

/-- `(*Parser).parse` from parser.go: a top-level scope parse, then the
`Nothing parsed` check when the map and the include list are both empty. -/
def parserParse (fuel : Nat) (st : PSt) : FMap × PSt :=
  let (vmap, _, st') := recursive_parse fuel 0 st []
  let st' :=
    if vmap.isEmpty && st'.incl.isEmpty then
      { st' with errs := st'.errs ++ ["Nothing parsed"] }
    else st'
  (vmap, st')

/-- The result of `Parse`/`ParseStream`: the flat string map, the include
list, and the aggregate error. -/
structure ParseResult where
  smap : List (List Char × List Char)
  includes : List (List Char)
  err : Option String
  deriving DecidableEq, Repr

/-- `Parse` from parser.go (via `ParseStream` with a fresh parser): scan the
source into physical lines, run the scope parser, convert the field map to
a string map (lower-casing keys under `PARSE_LOWER_CASE`), and aggregate
the errors. -/
def ParseCfg (src : String) (options : Nat := 0) : ParseResult :=
  let lines := physLines src.data
  let st : PSt := ⟨lines, 0, [], []⟩
  let (vmap, st') := parserParse (lines.length + 2) st
  let smap := vmap.map (fun p =>
    (if isOption PARSE_LOWER_CASE options then toLower p.1 else p.1, p.2.val))
  ⟨smap, st'.incl, getErrors st'.errs⟩

/-! ## Structural renderer (encode.go)

A populated Go value is modelled by a closed sum: scalars carry their
values, `time.Time` is abstracted to its zero-flag and the textual shape
the five-way classification in `encodeTime` would choose (that
classification inspects a real `time.Time`), structs carry ordered named
fields (visibility is the Go export rule on the name), and string-keyed
maps carry their entries (a `nil` map is modelled as the empty entry
list).  `vunsup` stands for a value of any kind `encodeScalar` cannot
handle (complex, slice, …), carrying the kind's name. -/

mutual

inductive RVal where
  | vint (z : Int)
  | vuint (n : Nat)
  | vfloat (q : ℚ)
  | vbool (b : Bool)
  | vstr (s : List Char)
  | vtime (zero : Bool) (dt : List Char)
  | vstruct (fields : RFields)
  | vmap (entries : RFields)
  | vunsup (kind : List Char)

/-- An ordered sequence of named members (struct fields in declaration
order, or map entries). -/
inductive RFields where
  | fnil
  | fcons (name : List Char) (v : RVal) (rest : RFields)

end

/-- Convenience constructor from a list of named members. -/
def RFields.ofList : List (List Char × RVal) → RFields
  | [] => .fnil
  | (name, v) :: rest => .fcons name v (RFields.ofList rest)

def RFields.isEmpty : RFields → Bool
  | .fnil => true
  | .fcons _ _ _ => false

/-- The member names, in order. -/
def RFields.keys : RFields → List (List Char)
  | .fnil => []
  | .fcons name _ rest => name :: rest.keys

/-- Lookup by name (first match). -/
def RFields.find? : RFields → List Char → Option RVal
  | .fnil, _ => none
  | .fcons name v rest, k => if name = k then some v else rest.find? k

mutual

/-- `isZeroStruct` from encode.go: nil maps are zero; a struct is zero when
all its public fields are recursively zero; a time is zero when it equals
the zero time; scalars are zero when they equal their type's zero value. -/
def isZeroStruct : RVal → Bool
  | .vmap es => es.isEmpty
  | .vstruct fs => isZeroFields fs
  | .vtime z _ => z
  | .vint z => z = 0
  | .vuint n => n = 0
  | .vfloat q => q = 0
  | .vbool b => !b
  | .vstr s => s.isEmpty
  | .vunsup _ => false

/-- The field loop of `isZeroStruct`: conjunction over public fields. -/
def isZeroFields : RFields → Bool
  | .fnil => true
  | .fcons name v rest =>
    (if isPublic name then isZeroStruct v else true) && isZeroFields rest

end

/-- `toSnakeCase` from decode.go, translated loop-for-loop (the counter `i`
resets at underscores and at an upper-case boundary insertion). -/
def toSnakeCaseGo : List Char → Bool → Bool → Bool → Int → List Char → List Char
  | [], _, _, _, _, bs => bs
  | c :: rest, lastn, lastu, lastw, i, bs =>
    let i := i + 1
    let n := isNumber c
    let w := isLower c
    let u := isUpper c
    let i := if c = '_' then 0 else i
    let (bs, i) :=
      if i > 1 && n ≠ lastn then (bs ++ ['_'], i)
      else if i > 1 && u ≠ lastu && lastw then (bs ++ ['_'], 0)
      else (bs, i)
    toSnakeCaseGo rest n u w i (bs ++ [lowerChar c])

def toSnakeCase (s : List Char) : List Char :=
  toSnakeCaseGo s false false false 0 []

/-- `setKeyCase` from decode.go (shared by decode and encode): snake-case
under either snake option, then lower-case under either lower option. -/
def setKeyCase (option : Nat) (k : List Char) : List Char :=
  let k :=
    if isOption ALLOW_SNAKE_CASE option || isOption ENCODE_SNAKE_CASE option then
      toSnakeCase k
    else k
  if isOption IGNORE_CASE option || isOption ENCODE_LOWER_CASE option then toLower k
  else k

/-- The encoder state: `previous_key`, the output buffer, and recorded
errors (writes to a byte buffer cannot fail, so only `Cannot encode type`
errors occur in this model). -/
structure ESt where
  prev : List Char
  out : List Char
  errs : List String
  deriving Repr

/-- `(*Encoder).write` from encode.go: two spaces of indent for every depth
level above 1. -/
def ewrite (depth : Nat) (s : List Char) (st : ESt) : ESt :=
  { st with out := st.out ++ List.replicate ((depth - 1) * 2) ' ' ++ s }

/-- `(*Encoder).write_kv` from encode.go: case-transform the key, then
write `key = value`. -/
def write_kv (opts : Nat) (depth : Nat) (key v : List Char) (st : ESt) : ESt :=
  ewrite depth (setKeyCase opts key ++ " = ".data ++ v ++ ['\n']) st

def hexDigitLower (n : Nat) : Char :=
  Char.ofNat (if n < 10 then 48 + n else 87 + n)

/-- Model of `strconv.QuoteToASCII`: wrap in quotes; quotes and backslashes
are escaped, printable ASCII passes through, the named control escapes are
used where they exist, other control bytes become `\xHH`, and non-ASCII
runes become `\uXXXX` / `\UXXXXXXXX`. -/
def goQuoteToASCII (s : List Char) : List Char :=
  '"' :: (s.flatMap escBody) ++ ['"']
where
  escBody (c : Char) : List Char :=
    if c = '"' then ['\\', '"']
    else if c = '\\' then ['\\', '\\']
    else if 0x20 ≤ c.toNat && c.toNat ≤ 0x7E then [c]
    else if c = '\n' then ['\\', 'n']
    else if c = '\t' then ['\\', 't']
    else if c.toNat = 13 then ['\\', 'r']
    else if c.toNat = 7 then ['\\', 'a']
    else if c.toNat = 8 then ['\\', 'b']
    else if c.toNat = 12 then ['\\', 'f']
    else if c.toNat = 11 then ['\\', 'v']
    else if c.toNat < 0x80 then
      ['\\', 'x', hexDigitLower (c.toNat / 16), hexDigitLower (c.toNat % 16)]
    else if c.toNat < 0x10000 then
      '\\' :: 'u' :: (List.range 4).reverse.map (fun k => hexDigitLower (c.toNat / 16 ^ k % 16))
    else
      '\\' :: 'U' :: (List.range 8).reverse.map (fun k => hexDigitLower (c.toNat / 16 ^ k % 16))

/-- `quote` from encode.go: empty stays empty; a string whose ASCII-quoted
form differs from it between the boundary quotes, or which has leading or
trailing space, is emitted quoted, anything else bare. -/
def quote (s : List Char) : List Char :=
  if s.isEmpty then []
  else
    let q := goQuoteToASCII s
    if (q.drop 1).dropLast ≠ s then q
    else if s.head? = some ' ' || s.getLast? = some ' ' then q
    else s

/-- `needs_heredoc` from encode.go: more than 3 line feeds. -/
def needs_heredoc (str : List Char) : Bool :=
  3 < (str.filter (· = '\n')).length

/-- `strings.Split(s, "\n")` (every segment, including empty ones). -/
def splitNLGo : List Char → List (List Char)
  | [] => [[]]
  | '\n' :: rest => [] :: splitNLGo rest
  | c :: rest =>
    match splitNLGo rest with
    | h :: t => (c :: h) :: t
    | [] => [[c]]

/-- `output_heredoc` from encode.go, with the time-derived terminator token
supplied as `code` (the source derives it from `time.Now`, an external
effect). -/
def output_heredoc (str code : List Char) : List Char :=
  '<' :: '<' :: code ++ ['\n'] ++
    (splitNLGo str).flatMap (fun s => s ++ ['\n']) ++ code

/-- Index of the last space of a segment, if any (`strings.LastIndex`). -/
def lastIndexSpace (s : List Char) : Option Nat :=
  match (s.reverse.takeWhile (· ≠ ' ')).length, s.contains ' ' with
  | k, true => some (s.length - 1 - k)
  | _, false => none

/-- The word-wrapping loop of `encodeMultiline` from encode.go (fuelled;
the index advances every iteration for the widths that occur, mirroring
the `for` loop). -/
def encodeMultilineGo (str : List Char) (width : Nat) :
    Nat → Nat → List (List Char) → List (List Char)
  | 0, i, ar => ar ++ [quote (str.drop i)]
  | fuel + 1, i, ar =>
    let n := i + width
    if n ≥ str.length then ar ++ [quote (str.drop i)]
    else
      let seg := (str.drop i).take width
      match lastIndexSpace seg with
      | some x0 =>
        let x := x0 + i + 1
        let k := ((str.drop x).takeWhile (· ≠ ' ')).length
        let n' := x + k
        encodeMultilineGo str width fuel n' (ar ++ [quote ((str.drop i).take (n' - i))])
      | none =>
        encodeMultilineGo str width fuel n (ar ++ [quote seg])

/-- `encodeMultiline` from encode.go: break a long string at word
boundaries into quoted segments chained by backslash-newline-indent.  (For
keys of length 77 and above the Go arithmetic makes the slice bounds
collapse and the source would panic; the claims never reach that case.) -/
def encodeMultiline (parent_key str : List Char) : List Char :=
  let width := multi_line_width - (parent_key.length + 3)
  let ar := encodeMultilineGo str width (str.length + 1) 0 []
  let indent := List.replicate (parent_key.length + 3) ' '
  match ar with
  | [] => []
  | h :: t => h ++ t.flatMap (fun seg => '\\' :: '\n' :: indent ++ seg)
where
  multi_line_width : Nat := 80

/-- `%v` rendering of a float64 via Go's shortest decimal formatting,
modelled for the integral values the encoder claims exercise; fractional
values get an explicitly non-Go placeholder spelling. -/
def floatRepr (q : ℚ) : List Char :=
  if q.den = 1 then (toString q.num).data
  else (toString q.num).data ++ '/' :: (toString q.den).data

/-- The kind name used in the `Cannot encode type (%v)` error. -/
def kindName : RVal → List Char
  | .vunsup k => k
  | .vstruct _ => "struct".data
  | .vmap _ => "map".data
  | .vtime _ _ => "struct".data
  | .vint _ => "int".data
  | .vuint _ => "uint".data
  | .vfloat _ => "float64".data
  | .vbool _ => "bool".data
  | .vstr _ => "string".data

/-- `encodeString` from encode.go: strings over 50 characters become a
heredoc (more than 3 line feeds) or a wrapped multiline, short strings are
`quote`d; a resulting empty text is dropped unless zero-value emission is
on, in which case it renders as `""`. -/
def encodeString (opts : Nat) (hcode : List Char) (str : List Char)
    (depth : Nat) (parent_key : List Char) (st : ESt) : ESt :=
  let str' :=
    if 50 < str.length then
      if needs_heredoc str then output_heredoc str hcode
      else encodeMultiline parent_key str
    else quote str
  if str'.isEmpty then
    if isOption ENCODE_ZERO_VALUES opts then write_kv opts depth parent_key ['"', '"'] st
    else st
  else write_kv opts depth parent_key str' st

/-- `encodeScalar` from encode.go: booleans render as `True`/`False`,
numeric zero values are suppressed unless zero emission is on; returns
false for a kind it cannot encode. -/
def encodeScalar (opts : Nat) (hcode : List Char) (v1 : RVal) (depth : Nat)
    (parent_key : List Char) (st : ESt) : Bool × ESt :=
  match v1 with
  | .vstr s => (true, encodeString opts hcode s depth parent_key st)
  | .vbool b =>
    if !isOption ENCODE_ZERO_VALUES opts && !b then (true, st)
    else (true, write_kv opts depth parent_key (if b then "True".data else "False".data) st)
  | .vint z =>
    if !isOption ENCODE_ZERO_VALUES opts && z = 0 then (true, st)
    else (true, write_kv opts depth parent_key (toString z).data st)
  | .vuint n =>
    if !isOption ENCODE_ZERO_VALUES opts && n = 0 then (true, st)
    else (true, write_kv opts depth parent_key (toString n).data st)
  | .vfloat q =>
    if !isOption ENCODE_ZERO_VALUES opts && q = 0 then (true, st)
    else (true, write_kv opts depth parent_key (floatRepr q) st)
  | _ => (false, st)

/-- `encodeTime` from encode.go: a time value always writes its selected
textual shape (there is no zero suppression in this branch). -/
def encodeTime (opts : Nat) (dt : List Char) (depth : Nat)
    (parent_key : List Char) (st : ESt) : ESt :=
  write_kv opts depth parent_key dt st

/-- Byte-lexicographic string comparison (Go `<=` on strings, on ASCII
data). -/
def listCharLE : List Char → List Char → Bool
  | [], _ => true
  | _ :: _, [] => false
  | a :: as, b :: bs => if a = b then listCharLE as bs else decide (a < b)

def insertSorted (x : List Char) : List (List Char) → List (List Char)
  | [] => [x]
  | y :: rest => if listCharLE x y then x :: y :: rest else y :: insertSorted x rest

/-- `sort.Strings` over the map keys: ascending lexicographic order (an
insertion sort; the keys of a Go map are distinct, so any correct sort
produces the same sequence). -/
def sortKeys (es : RFields) : List (List Char) :=
  es.keys.foldr insertSorted []

/-- `v1.MapIndex(ky)` for the entry list. -/
def mapIndex (es : RFields) (ky : List Char) : RVal :=
  (es.find? ky).getD (.vint 0)

mutual

/-- `encodeTraverseStruct` from encode.go (fuelled; every recursive call
strictly decreases the fuel, and any fuel exceeding thrice the value's
size is sufficient). -/
def encodeTraverseStruct (opts : Nat) (hcode : List Char) (fuel : Nat)
    (v1 : RVal) (depth : Nat) (parent_key : List Char) (st : ESt) : ESt :=
  match fuel with
  | 0 => st
  | fuel + 1 =>
    match v1 with
    | .vmap es => encodeMapE opts hcode fuel es depth parent_key st
    | .vtime _ dt => encodeTime opts dt depth parent_key st
    | .vstruct fs => encodeStructE opts hcode fuel fs depth parent_key st
    | v =>
      match encodeScalar opts hcode v depth parent_key st with
      | (true, st') => st'
      | (false, st') =>
        { st' with
          errs := st'.errs ++ ["Cannot encode type (" ++ (kindName v).asString ++ ")"] }
termination_by structural fuel

/-- `encodeMap` from encode.go: sort the keys, run the entry loop, close
the brace if one was opened (and the key is nonempty). -/
def encodeMapE (opts : Nat) (hcode : List Char) (fuel : Nat) (es : RFields)
    (depth : Nat) (parent_key : List Char) (st : ESt) : ESt :=
  match fuel with
  | 0 => st
  | fuel + 1 =>
    let r :=
      encodeMapLoop opts hcode fuel es (sortKeys es) depth parent_key st [] false
    if r.2 && !parent_key.isEmpty then ewrite depth ("\x7d\n".data) r.1 else r.1
termination_by structural fuel

/-- The entry loop of `encodeMap`: the suppression test is
`!(zeroOption && isZeroStruct(theMap))` — a condition on the *map*, not the
member — so for a nonempty map the brace is opened before the member is
even examined. -/
def encodeMapLoop (opts : Nat) (hcode : List Char) (fuel : Nat) (es : RFields)
    (keys : List (List Char)) (depth : Nat) (parent_key : List Char)
    (st : ESt) (last_parent : List Char) (opened : Bool) : ESt × Bool :=
  match fuel with
  | 0 => (st, opened)
  | fuel + 1 =>
    match keys with
    | [] => (st, opened)
    | ky :: rest =>
      if !(isOption ENCODE_ZERO_VALUES opts && isZeroStruct (.vmap es)) then
        let v := mapIndex es ky
        let s1 :=
          if parent_key ≠ st.prev && last_parent ≠ parent_key then
            (write_kv opts depth parent_key ['{'] { st with prev := parent_key },
             true, parent_key)
          else (st, opened, last_parent)
        let st' := encodeTraverseStruct opts hcode fuel v (depth + 1) ky s1.1
        encodeMapLoop opts hcode fuel es rest depth parent_key st' s1.2.2 s1.2.1
      else
        encodeMapLoop opts hcode fuel es rest depth parent_key st last_parent opened
termination_by structural fuel

/-- `encodeStruct` from encode.go: iterate declared fields, close the brace
if one was opened. -/
def encodeStructE (opts : Nat) (hcode : List Char) (fuel : Nat) (fs : RFields)
    (depth : Nat) (parent_key : List Char) (st : ESt) : ESt :=
  match fuel with
  | 0 => st
  | fuel + 1 =>
    let r := encodeStructLoop opts hcode fuel fs fs depth parent_key st [] false
    if r.2 && !parent_key.isEmpty then ewrite depth ("\x7d\n".data) r.1 else r.1
termination_by structural fuel

/-- The field loop of `encodeStruct`: private fields are skipped; with a
parent key, a field of an entirely-zero struct is skipped (zero emission
off); the brace for the parent is opened at most once. -/
def encodeStructLoop (opts : Nat) (hcode : List Char) (fuel : Nat)
    (whole fields : RFields) (depth : Nat) (parent_key : List Char)
    (st : ESt) (last_parent : List Char) (opened : Bool) : ESt × Bool :=
  match fuel with
  | 0 => (st, opened)
  | fuel + 1 =>
    match fields with
    | .fnil => (st, opened)
    | .fcons name fv rest =>
      if !isPublic name then
        encodeStructLoop opts hcode fuel whole rest depth parent_key st last_parent opened
      else if !parent_key.isEmpty &&
          (!isOption ENCODE_ZERO_VALUES opts && isZeroStruct (.vstruct whole)) then
        encodeStructLoop opts hcode fuel whole rest depth parent_key st last_parent opened
      else
        let s1 :=
          if !parent_key.isEmpty && parent_key ≠ st.prev && last_parent ≠ parent_key then
            (write_kv opts depth parent_key ['{'] { st with prev := parent_key },
             true, parent_key)
          else (st, opened, last_parent)
        let st' := encodeTraverseStruct opts hcode fuel fv (depth + 1) name s1.1
        encodeStructLoop opts hcode fuel whole rest depth parent_key st' s1.2.2 s1.2.1
termination_by structural fuel

end

/-- `Encode` from encode.go: traverse from depth 0 with an empty parent
key; returns the buffer and the recorded errors.  `hcode` stands in for the
time-derived heredoc terminator of `output_heredoc`. -/
def Encode (x : RVal) (options : Nat := 0)
    (hcode : List Char := "__5A__".data) (fuel : Nat := 1000) :
    List Char × List String :=
  let st := encodeTraverseStruct options hcode fuel x 0 [] ⟨[], [], []⟩
  (st.out, st.errs)

/-! ## Specification-side comparison definitions

These two definitions follow the specification's words (not the source) and
exist to be compared with the source-translated `iFix` / `floatFix`. -/

/-- The integer pre-parse transformation exactly as the specification
describes it, with no length condition: strip grouping commas, then replace
a final `K`/`M`/`G`/`T`/`P`/`E` by the matching number of literal zero
digits (3, 6, 9, 12, 15, 18). -/
def specIntExpand (s : List Char) : List Char :=
  let s := removeCommas s
  match s.getLast? with
  | none => s
  | some c =>
    let p := s.dropLast
    match c with
    | 'K' => p ++ ("000".data)
    | 'M' => p ++ ("000000".data)
    | 'G' => p ++ ("000000000".data)
    | 'T' => p ++ ("000000000000".data)
    | 'P' => p ++ ("000000000000000".data)
    | 'E' => p ++ ("000000000000000000".data)
    | _ => s

/-- The float abbreviation rule as the specification describes it, applied
to the parsed numeric prefix `v` and the trailing character `c`: the six
upper-case letters multiply by the matching power of ten, anything else
fails with "Invalid numeric abbreviation". -/
def specFloatAbbrev (c : Char) (v : ℚ) : Except String ℚ :=
  match c with
  | 'K' => .ok (v * 1000)
  | 'M' => .ok (v * 1000000)
  | 'G' => .ok (v * 1000000000)
  | 'T' => .ok (v * 1000000000000)
  | 'P' => .ok (v * 1000000000000000)
  | 'E' => .ok (v * 1000000000000000000)
  | _ => .error "Invalid numeric abbreviation"

/-! ## Claims -/

/-- C1: redefining a key path directly in the same scope makes the parse
fail with "Duplicate key" naming the line of the re-definition, while the
flat map retains the first-defined raw value.  First conjunct: in any scope
state whose map already binds `key`, a keyval line re-defining `key` only
appends `Duplicate key at line n` and leaves the map untouched.  Second
conjunct: end-to-end, `K=1\nK=2\n` fails with exactly
`Duplicate key at line 2` and the returned map binds `K` to `1`. -/
theorem C1_duplicate_key :
    (∀ (fuel depth : Nat) (st : PSt) (acc : FMap) (s : List Char)
       (lines' : List (List Char)) (n' : Nat) (key val : List Char),
      nextLine st.lines st.lineno = (some (s, lines'), n') →
      matchInclude s = none →
      matchOpenBrace s = none →
      matchCloseBrace s = false →
      matchHeredoc s = none →
      matchMultiline s = none →
      matchKeyval s = some (key, val) →
      fExists acc key = true →
      recursive_parse (fuel + 1) depth st acc =
        recursive_parse fuel depth
          { st with lines := lines', lineno := n',
                    errs := st.errs ++ [newError "Duplicate key" n'] } acc) ∧
    ParseCfg "K=1\nK=2\n" =
      ⟨[("K".data, "1".data)], [], some "Duplicate key at line 2"⟩ := by
  refine ⟨?_, by decide⟩
  intro fuel depth st acc s lines' n' key val h1 h2 h3 h4 h5 h6 h7 h8
  simp only [recursive_parse, h1, h2, h3, h4, h5, h6, h7, handleKeyval, h8, if_true,
    Bool.false_eq_true, if_false]

/-- Witness for C1: the duplicate-key step applied to the second line of
`K=1\nK=2\n`, with the map already holding `K ↦ 1`. -/
theorem C1_duplicate_key_witness :
    recursive_parse 2 0 ⟨["K=2".data], 1, [], []⟩ [("K".data, ⟨"1".data, 1⟩)] =
      recursive_parse 1 0 ⟨[], 2, [newError "Duplicate key" 2], []⟩
        [("K".data, ⟨"1".data, 1⟩)] :=
  C1_duplicate_key.1 1 0 ⟨["K=2".data], 1, [], []⟩ [("K".data, ⟨"1".data, 1⟩)]
    "K=2".data [] 2 "K".data "2".data rfl rfl rfl rfl rfl rfl rfl rfl

/-- C2 counterexample: in `A.B = 1` followed by the brace block `A { B = 2 }`,
the flattened path `A.B` collides with the existing flat key, yet the parse
succeeds with no error and the map holds the *later* value `2` — the claimed
duplicate error and first-value retention do not happen. -/
theorem C2_counterexample :
    ParseCfg "A.B = 1\nA \x7b\nB = 2\n\x7d\n" =
      ⟨[("A.B".data, "2".data)], [], none⟩ := by decide

/-- Replacing insertion: a lookup after `fInsert` over an existing key
finds the new value (helper for the merge-overwrite property). -/
theorem fLookup_map_replace (k : List Char) (v : V) :
    ∀ m : FMap, fExists m k = true →
      fLookup (m.map (fun p => if p.1 = k then (k, v) else p)) k = some v := by
  intro m
  induction m with
  | nil => intro h; simp [fExists] at h
  | cons p t ih =>
    intro h
    by_cases hp : p.1 = k
    · simp only [List.map_cons, if_pos hp]
      unfold fLookup
      rw [List.find?_cons_of_pos _ (by simp)]
      rfl
    · have ht : fExists t k = true := by
        unfold fExists at h ⊢
        rw [List.any_cons, Bool.or_eq_true] at h
        rcases h with h | h
        · exact absurd (of_decide_eq_true h) hp
        · exact h
      have hrec := ih ht
      simp only [List.map_cons, if_neg hp]
      unfold fLookup at hrec ⊢
      rw [List.find?_cons_of_neg _ (by simpa using hp)]
      exact hrec

/-- Appending insertion: a lookup after `fInsert` over a fresh key finds
the appended value (helper for the merge-overwrite property). -/
theorem fLookup_append_new (k : List Char) (v : V) :
    ∀ m : FMap, fExists m k = false → fLookup (m ++ [(k, v)]) k = some v := by
  intro m
  induction m with
  | nil =>
    intro h
    unfold fLookup
    rw [List.nil_append, List.find?_cons_of_pos _ (by simp)]
    rfl
  | cons p t ih =>
    intro h
    have h' := h
    unfold fExists at h'
    rw [List.any_cons] at h'
    have hp : decide (p.1 = k) = false := by
      cases hb : decide (p.1 = k)
      · rfl
      · rw [hb, Bool.true_or] at h'
        cases h'
    have ht : fExists t k = false := by
      cases hb : t.any fun q => decide (q.1 = k)
      · unfold fExists
        exact hb
      · rw [hb, Bool.or_true] at h'
        cases h'
    have hrec := ih ht
    have hpne : ¬(p.1 = k) := of_decide_eq_false hp
    unfold fLookup at hrec ⊢
    rw [List.cons_append, List.find?_cons_of_neg _ (by simpa using hpne)]
    exact hrec

/-- C2 (amended): re-definition of the same key *text* within a scope is
detected — a duplicate brace-parent key (first conjunct) and a duplicate
heredoc/multiline key (second conjunct) error with the map unchanged — but
the flattened `parent.child` entries of a brace block are merged by plain
map assignment with no duplicate check (third conjunct), and such an
assignment overwrites an existing binding (fourth conjunct), so a collision
between a flattened path and an existing flat dotted key silently keeps the
later value. -/
theorem C2_scope_uniqueness :
    (∀ (acc : FMap) (errs : List String) (key : List Char) (lineno : Nat) (emap : FMap),
      fExists acc key = true →
      mergeBrace acc errs key lineno emap none =
        (acc, errs ++ [newError "Duplicate key" lineno])) ∧
    (∀ (acc : FMap) (errs : List String) (key val : List Char) (n : Nat),
      fExists acc key = true →
      handleStore acc errs key val n = (acc, errs ++ [newError "Duplicate key" n])) ∧
    (∀ (acc : FMap) (errs : List String) (key : List Char) (lineno : Nat)
       (child : List Char) (v : V),
      fExists acc key = false →
      mergeBrace acc errs key lineno [(child, v)] none =
        (fInsert (fInsert acc key ⟨nestedVal, lineno⟩) (key ++ '.' :: child) v, errs)) ∧
    (∀ (m : FMap) (k : List Char) (v : V), fLookup (fInsert m k v) k = some v) := by
  refine ⟨?_, ?_, ?_, ?_⟩
  · intro acc errs key lineno emap h
    unfold mergeBrace
    rw [h]
    rfl
  · intro acc errs key val n h
    unfold handleStore
    rw [h]
    rfl
  · intro acc errs key lineno child v h
    unfold mergeBrace
    rw [h]
    rfl
  · intro m k v
    unfold fInsert
    by_cases hex : fExists m k
    · rw [if_pos hex]
      exact fLookup_map_replace k v m hex
    · rw [if_neg hex]
      exact fLookup_append_new k v m (by simpa using hex)

/-- Witness for C2: the four parts instantiated — a duplicate brace parent
on a concrete map, a duplicate multiline store, a concrete single-entry
merge, and the overwrite of `A.B ↦ 1` by `A.B ↦ 2`. -/
theorem C2_scope_uniqueness_witness :
    mergeBrace [("A".data, ⟨"1".data, 1⟩)] [] "A".data 2 [] none =
      ([("A".data, ⟨"1".data, 1⟩)], [newError "Duplicate key" 2]) ∧
    handleStore [("K".data, ⟨"1".data, 1⟩)] [] "K".data "2".data 3 =
      ([("K".data, ⟨"1".data, 1⟩)], [newError "Duplicate key" 3]) ∧
    mergeBrace [("A.B".data, ⟨"1".data, 1⟩)] [] "A".data 2
        [("B".data, ⟨"2".data, 3⟩)] none =
      (fInsert (fInsert [("A.B".data, ⟨"1".data, 1⟩)] "A".data ⟨nestedVal, 2⟩)
        ("A.B".data) ⟨"2".data, 3⟩, []) ∧
    fLookup (fInsert [("A.B".data, ⟨"1".data, 1⟩)] "A.B".data ⟨"2".data, 3⟩)
      "A.B".data = some ⟨"2".data, 3⟩ :=
  ⟨C2_scope_uniqueness.1 _ _ _ _ _ rfl,
   C2_scope_uniqueness.2.1 _ _ _ _ _ rfl,
   C2_scope_uniqueness.2.2.1 _ _ "A".data 2 "B".data ⟨"2".data, 3⟩ rfl,
   C2_scope_uniqueness.2.2.2 _ "A.B".data ⟨"2".data, 3⟩⟩

/-- C3 counterexample: `iFix` returns strings of length below 2 unchanged,
so the one-character string `K` is not comma-stripped or zero-expanded: the
claimed transformation would give `000` (which parses to 0), but the code
leaves `K`, and an 8-bit signed coercion of `"K"` is a syntax error rather
than a stored 0. -/
theorem C3_counterexample :
    iFix "K".data = "K".data ∧ specIntExpand "K".data = "000".data ∧
    set_int 8 "K".data = .error "invalid syntax" ∧
    goAtoi (specIntExpand "K".data) = .ok 0 :=
  ⟨rfl, rfl, rfl, rfl⟩

/-- C3 (amended): for every raw string of length at least 2 whose
comma-stripped form still has a last character (the all-comma strings of
length at least 2 are excluded: there the Go source indexes past the start
of the emptied string and panics), the integer pre-parse transformation is
exactly the claimed one — commas stripped, a final K/M/G/T/P/E replaced by
3/6/9/12/15/18 literal zero digits — and the claim's examples hold
end-to-end: `1K` decodes to 1000 and `2,048M` to 2048000000; a shorter
string is parsed as-is. -/
theorem C3_int_abbreviation :
    (∀ (s : List Char) (c : Char),
      2 ≤ s.length → (removeCommas s).getLast? = some c →
      iFix s = specIntExpand s) ∧
    (∀ s : List Char, s.length < 2 → iFix s = s) ∧
    set_int64 "1K".data = .ok 1000 ∧
    set_int64 "2,048M".data = .ok 2048000000 := by
  refine ⟨?_, ?_, rfl, rfl⟩
  · intro s c h hlast
    unfold iFix
    rw [if_neg (by omega)]
    rfl
  · intro s h
    unfold iFix
    rw [if_pos h]

/-- Witness for C3: the transformation agreement at `1K` (whose
comma-stripped form ends in `K`) and the short-string passthrough at `K`. -/
theorem C3_int_abbreviation_witness :
    iFix "1K".data = specIntExpand "1K".data ∧ iFix "K".data = "K".data :=
  ⟨C3_int_abbreviation.1 "1K".data 'K' (by decide) (by decide),
   C3_int_abbreviation.2.1 "K".data (by decide)⟩

/-- C4: end-of-input inside an unclosed brace scope.  First conjunct: at
depth above 0, end of input makes the scope return its (cleaned) map with
the "Missing closing brace" error.  Second conjunct: the caller records
that error at the line that opened the scope (`n'`, the open-brace line)
and discards the aborted scope's entries (`emap` is unused, `acc` is kept).
Third conjunct: end-to-end, `Key={\nInner=1\n` fails with
`Missing closing brace at line 1` (the code additionally reports
`Nothing parsed`, as nothing was retained). -/
theorem C4_missing_closing_brace :
    (∀ (fuel depth : Nat) (st : PSt) (acc : FMap) (n' : Nat),
      0 < depth →
      nextLine st.lines st.lineno = (none, n') →
      recursive_parse (fuel + 1) depth st acc =
        (cleanNested acc, some "Missing closing brace",
         { st with lines := [], lineno := n' })) ∧
    (∀ (fuel depth : Nat) (st : PSt) (acc : FMap) (s : List Char)
       (lines' : List (List Char)) (n' : Nat) (key : List Char)
       (emap : FMap) (e : String) (st2 : PSt),
      nextLine st.lines st.lineno = (some (s, lines'), n') →
      matchInclude s = none →
      matchOpenBrace s = some key →
      recursive_parse fuel (depth + 1) { st with lines := lines', lineno := n' } [] =
        (emap, some e, st2) →
      recursive_parse (fuel + 1) depth st acc =
        recursive_parse fuel depth { st2 with errs := st2.errs ++ [newError e n'] } acc) ∧
    ParseCfg "Key=\x7b\nInner=1\n" =
      ⟨[], [], some "Missing closing brace at line 1\nNothing parsed"⟩ := by
  refine ⟨?_, ?_, by decide⟩
  · intro fuel depth st acc n' hd h1
    simp only [recursive_parse, h1]
    rw [if_pos hd]
  · intro fuel depth st acc s lines' n' key emap e st2 h1 h2 h3 h4
    simp only [recursive_parse, h1, h2, h3, h4, mergeBrace]

/-- Witness for C4: the two general parts at the concrete parse of
`Key={\nInner=1\n` — end of input inside the nested scope, and the caller
attributing the nested failure to opening line 1. -/
theorem C4_missing_closing_brace_witness :
    recursive_parse 1 1 ⟨[], 2, [], []⟩ [("Inner".data, ⟨"1".data, 2⟩)] =
      ([("Inner".data, ⟨"1".data, 2⟩)], some "Missing closing brace", ⟨[], 2, [], []⟩) ∧
    recursive_parse 3 0 ⟨["Key=\x7b".data, "Inner=1".data], 0, [], []⟩ [] =
      recursive_parse 2 0 ⟨[], 2, [newError "Missing closing brace" 1], []⟩ [] :=
  ⟨C4_missing_closing_brace.1 0 1 ⟨[], 2, [], []⟩ [("Inner".data, ⟨"1".data, 2⟩)] 2
     (by decide) rfl,
   C4_missing_closing_brace.2.1 2 0 ⟨["Key=\x7b".data, "Inner=1".data], 0, [], []⟩ []
     "Key=\x7b".data ["Inner=1".data] 1 "Key".data [("Inner".data, ⟨"1".data, 2⟩)]
     "Missing closing brace" ⟨[], 2, [], []⟩ rfl rfl rfl (by decide)⟩

/-- C5: the include pattern's capture group is `\"?[^\"=]*`, so it *keeps
the opening quote* while the closing quote is stripped: parsing
`include "other.cfg"` records the path `"other.cfg` (with a literal quote),
contradicting the documented behaviour that quotes are stripped and the
recorded path never contains a quote.  An unquoted include is recorded
verbatim, and neither form adds a key-path entry. -/
theorem C5_include_quote_retained :
    ParseCfg "include \x22other.cfg\x22\n" = ⟨[], ["\x22other.cfg".data], none⟩ ∧
    ParseCfg "include other.cfg\n" = ⟨[], ["other.cfg".data], none⟩ ∧
    List.contains ("\x22other.cfg".data) '"' = true := by decide

/-- C6 counterexample: the claim says every raw string of a length other
than 25/19/14/10/8 fails — but for the empty string `set_time` hands the
empty layout and the empty value to `time.Parse`, which succeeds and yields
the all-defaults time. -/
theorem C6_counterexample : set_time [] = .ok GoTime.zero := rfl

/-- C6 (amended): the textual format is selected solely by the raw string's
length (the five claimed lengths select the five claimed layouts, shown on
representative values), and for every *nonempty* string of any other length
the coercion fails (empty layout, "extra text"), the failure carrying the
source line when the decoder wraps it; the empty string, however, succeeds
with the zero-defaults time. -/
theorem C6_time_by_length :
    (∀ val : List Char,
      val ≠ [] → val.length ≠ 25 → val.length ≠ 19 → val.length ≠ 14 →
      val.length ≠ 10 → val.length ≠ 8 → set_time val = .error "extra text") ∧
    set_time [] = .ok GoTime.zero ∧
    set_time "2017-12-25 08:10:00 -0800".data = .ok ⟨2017, 12, 25, 8, 10, 0, -480⟩ ∧
    set_time "2017-12-25 08:10:00".data = .ok ⟨2017, 12, 25, 8, 10, 0, 0⟩ ∧
    set_time "08:10:00 -0800".data =
      .ok { GoTime.zero with hour := 8, minute := 10, offMinutes := -480 } ∧
    set_time "2017-12-25".data = .ok { GoTime.zero with year := 2017, month := 12, day := 25 } ∧
    set_time "08:10:00".data = .ok { GoTime.zero with hour := 8, minute := 10 } ∧
    (∀ (val : List Char) (lineno : Nat) (e : String),
      0 < lineno → set_time val = .error e →
      decodeTimeField val lineno = .error (e ++ " at line " ++ toString lineno)) := by
  refine ⟨?_, rfl, rfl, rfl, rfl, rfl, rfl, ?_⟩
  · intro val hne h25 h19 h14 h10 h8
    unfold set_time
    rw [show timeLayoutOfLength val.length = .emptyLayout by
      unfold timeLayoutOfLength
      rw [if_neg h25, if_neg h19, if_neg h14, if_neg h10, if_neg h8]]
    unfold goTimeParse
    rw [if_neg (by simpa [List.isEmpty_iff] using hne)]
  · intro val lineno e h1 h2
    unfold decodeTimeField
    rw [h2]
    show Except.error (newError e lineno) = _
    unfold newError
    rw [if_pos h1]

/-- Witness for C6: a length-1 value fails with "extra text", and the
decoder attaches its source line. -/
theorem C6_time_by_length_witness :
    set_time ['x'] = .error "extra text" ∧
    decodeTimeField ['x'] 7 = .error ("extra text" ++ " at line " ++ toString 7) :=
  ⟨C6_time_by_length.1 ['x'] (by decide) (by decide) (by decide) (by decide)
    (by decide) (by decide),
   C6_time_by_length.2.2.2.2.2.2.2 ['x'] 7 "extra text" (by decide)
    (C6_time_by_length.1 ['x'] (by decide) (by decide) (by decide) (by decide)
      (by decide) (by decide))⟩

/-- C7 counterexample: the claim says any non-K/M/G/T/P/E non-digit
trailing letter fails with "Invalid numeric abbreviation" — but when the
numeric prefix itself does not parse (here `a` of `az`), the failure is the
prefix's syntax error, a different message. -/
theorem C7_counterexample :
    floatFix "az".data = .error "invalid syntax" ∧
    "invalid syntax" ≠ "Invalid numeric abbreviation" := ⟨rfl, by decide⟩

/-- C7 (amended): the empty string yields 0 with no error; a one-character
string is parsed directly; `2.2K` yields 2200; and after comma removal a
trailing non-digit character with a *parseable* prefix behaves exactly as
the specification's abbreviation table (K..E multiply by 10³..10¹⁸,
anything else is "Invalid numeric abbreviation"), while an unparseable
prefix propagates the prefix's own parse error instead. -/
theorem C7_float_abbreviation :
    floatFix [] = .ok 0 ∧
    (∀ c : Char, floatFix [c] = goParseFloat [c]) ∧
    floatFix "2.2K".data = .ok 2200 ∧
    (∀ (s : List Char) (c : Char) (v : ℚ),
      2 ≤ s.length → (removeCommas s).getLast? = some c → isNumber c = false →
      goParseFloat (removeCommas s).dropLast = .ok v →
      floatFix s = specFloatAbbrev c v) ∧
    (∀ (s : List Char) (c : Char) (e : String),
      2 ≤ s.length → (removeCommas s).getLast? = some c → isNumber c = false →
      goParseFloat (removeCommas s).dropLast = .error e →
      floatFix s = .error e) := by
  refine ⟨rfl, fun c => rfl, ?_, ?_, ?_⟩
  · have h : floatFix "2.2K".data =
        .ok (((digitsToNat ['2'] : ℚ) + (digitsToNat ['2'] : ℚ) / (10 : ℚ) ^ (1 : Nat))
          * 1000) := rfl
    rw [h, show digitsToNat ['2'] = 2 from rfl]
    simp only [Except.ok.injEq]
    norm_num
  · intro s c v hlen hlast hnum hpf
    unfold floatFix
    rw [if_neg (by omega), if_neg (by omega)]
    simp only [hlast, hnum, Bool.false_eq_true, if_false, hpf]
    rfl
  · intro s c e hlen hlast hnum hpf
    unfold floatFix
    rw [if_neg (by omega), if_neg (by omega)]
    simp only [hlast, hnum, Bool.false_eq_true, if_false, hpf]

/-- Witness for C7: the abbreviation branch at `3K` (multiply by 1000), the
error branch at `1z`, and the propagated prefix error at `az`. -/
theorem C7_float_abbreviation_witness :
    floatFix "3K".data = specFloatAbbrev 'K' 3 ∧
    floatFix "1z".data = specFloatAbbrev 'z' 1 ∧
    floatFix "az".data = .error "invalid syntax" ∧
    floatFix ['x'] = goParseFloat ['x'] :=
  ⟨C7_float_abbreviation.2.2.2.1 "3K".data 'K' 3 (by decide) (by decide) (by decide)
     (by
       have h : goParseFloat (removeCommas "3K".data).dropLast =
           .ok ((digitsToNat ['3'] : ℚ) +
             (digitsToNat ([] : List Char) : ℚ) / (10 : ℚ) ^ (0 : Nat)) := rfl
       rw [h, show digitsToNat ['3'] = 3 from rfl,
         show digitsToNat ([] : List Char) = 0 from rfl]
       simp only [Except.ok.injEq]
       norm_num),
   C7_float_abbreviation.2.2.2.1 "1z".data 'z' 1 (by decide) (by decide) (by decide)
     (by
       have h : goParseFloat (removeCommas "1z".data).dropLast =
           .ok ((digitsToNat ['1'] : ℚ) +
             (digitsToNat ([] : List Char) : ℚ) / (10 : ℚ) ^ (0 : Nat)) := rfl
       rw [h, show digitsToNat ['1'] = 1 from rfl,
         show digitsToNat ([] : List Char) = 0 from rfl]
       simp only [Except.ok.injEq]
       norm_num),
   C7_float_abbreviation.2.2.2.2 "az".data 'z' "invalid syntax" (by decide) (by decide)
     (by decide) (by decide),
   C7_float_abbreviation.2.1 'x'⟩

/-- The overflow check of `set_int` in terms of the destination width's
value range. -/
theorem overflowInt_iff (w : Nat) (v : Int) :
    overflowInt w v = true ↔ (v < -((2 : Int) ^ (w - 1)) ∨ (2 : Int) ^ (w - 1) ≤ v) := by
  simp [overflowInt]

/-- The overflow check of `set_uint` in terms of the destination width's
value range. -/
theorem overflowUint_iff (w : Nat) (x : Nat) :
    overflowUint w x = true ↔ (2 : Nat) ^ w ≤ x := by
  simp [overflowUint]

/-- C8: for the narrow signed widths (8/16/32), once the
abbreviation-expanded string parses, the value is re-checked against the
width's range: out of range fails with "Overflow", in range stores the
value; likewise for the narrow unsigned widths after the `uint64(v)` cast;
and concretely `"128"` into an 8-bit signed destination overflows while
`"127"` stores 127. -/
theorem C8_narrow_overflow :
    (∀ (w : Nat) (val : List Char) (v : Int),
      w = 8 ∨ w = 16 ∨ w = 32 →
      goAtoi (iFix val) = .ok v →
      ((v < -((2 : Int) ^ (w - 1)) ∨ (2 : Int) ^ (w - 1) ≤ v) →
        set_int w val = .error "Overflow") ∧
      (-((2 : Int) ^ (w - 1)) ≤ v → v < (2 : Int) ^ (w - 1) →
        set_int w val = .ok v)) ∧
    (∀ (w : Nat) (val : List Char) (v : Int),
      w = 8 ∨ w = 16 ∨ w = 32 →
      goAtoi (iFix val) = .ok v →
      ((2 : Nat) ^ w ≤ (v % (2 ^ 64 : Int)).toNat →
        set_uint w val = .error "Overflow") ∧
      ((v % (2 ^ 64 : Int)).toNat < (2 : Nat) ^ w →
        set_uint w val = .ok ((v % (2 ^ 64 : Int)).toNat))) ∧
    set_int 8 "128".data = .error "Overflow" ∧
    set_int 8 "127".data = .ok 127 := by
  refine ⟨?_, ?_, rfl, rfl⟩
  · intro w val v _ h
    constructor
    · intro hout
      unfold set_int
      rw [h]
      show (if overflowInt w v = true then Except.error "Overflow" else Except.ok v) = _
      rw [if_pos ((overflowInt_iff w v).mpr hout)]
    · intro h1 h2
      unfold set_int
      have hov : overflowInt w v = false := by
        rw [Bool.eq_false_iff]
        intro hc
        rcases (overflowInt_iff w v).mp hc with hcc | hcc
        · linarith
        · linarith
      rw [h]
      show (if overflowInt w v = true then Except.error "Overflow" else Except.ok v) = _
      rw [hov]
      rfl
  · intro w val v _ h
    constructor
    · intro hout
      unfold set_uint
      rw [h]
      show (if overflowUint w ((v % (2 ^ 64 : Int)).toNat) = true then Except.error "Overflow"
        else Except.ok ((v % (2 ^ 64 : Int)).toNat)) = _
      rw [if_pos ((overflowUint_iff w _).mpr hout)]
    · intro h1
      unfold set_uint
      have hov : overflowUint w ((v % (2 ^ 64 : Int)).toNat) = false := by
        rw [Bool.eq_false_iff]
        intro hc
        exact absurd ((overflowUint_iff w _).mp hc) (by omega)
      rw [h]
      show (if overflowUint w ((v % (2 ^ 64 : Int)).toNat) = true then Except.error "Overflow"
        else Except.ok ((v % (2 ^ 64 : Int)).toNat)) = _
      rw [hov]
      rfl

/-- Witness for C8: `"128"` overflows an 8-bit signed destination, `"127"`
is stored, `"256"` overflows an 8-bit unsigned destination, `"255"` is
stored. -/
theorem C8_narrow_overflow_witness :
    set_int 8 "128".data = .error "Overflow" ∧
    set_int 8 "127".data = .ok 127 ∧
    set_uint 8 "256".data = .error "Overflow" ∧
    set_uint 8 "255".data = .ok 255 :=
  ⟨(C8_narrow_overflow.1 8 "128".data 128 (Or.inl rfl) rfl).1 (by norm_num),
   (C8_narrow_overflow.1 8 "127".data 127 (Or.inl rfl) rfl).2 (by norm_num) (by norm_num),
   (C8_narrow_overflow.2.1 8 "256".data 256 (Or.inl rfl) rfl).1 (by norm_num),
   (C8_narrow_overflow.2.1 8 "255".data 255 (Or.inl rfl) rfl).2 (by norm_num)⟩

/-- A zero `int` member under default options writes nothing and leaves
the encoder state unchanged, at any fuel. -/
theorem encodeTraverse_vint_zero (hcode : List Char) (fuel depth : Nat)
    (pk : List Char) (st : ESt) :
    encodeTraverseStruct 0 hcode fuel (.vint 0) depth pk st = st := by
  cases fuel
  · rfl
  · rfl

/-- Once the parent key equals `previous_key`, a map-entry loop over
all-zero members changes nothing: the brace guard is false, so the block
is never reopened — at any fuel. -/
theorem encodeMapLoop_prev (hcode : List Char) :
    ∀ (fuel : Nat) (es : RFields) (keys : List (List Char)) (depth : Nat)
      (pk : List Char) (st : ESt) (last : List Char) (op : Bool),
      pk = st.prev →
      (∀ k ∈ keys, mapIndex es k = .vint 0) →
      encodeMapLoop 0 hcode fuel es keys depth pk st last op = (st, op) := by
  intro fuel
  induction fuel with
  | zero => intro es keys depth pk st last op hpk hall; rfl
  | succ n ih =>
    intro es keys depth pk st last op hpk hall
    match keys with
    | [] => rfl
    | ky :: rest =>
      unfold encodeMapLoop
      rw [show (isOption ENCODE_ZERO_VALUES 0 && isZeroStruct (.vmap es)) = false by
        rw [show isOption ENCODE_ZERO_VALUES 0 = false from rfl, Bool.false_and]]
      simp only [Bool.not_false, if_true]
      rw [if_neg (by simp [hpk])]
      rw [hall ky (List.mem_cons_self ky rest), encodeTraverse_vint_zero]
      exact ih es rest depth pk st last op hpk (fun k hk => hall k (List.mem_cons_of_mem _ hk))

/-- With zero-value emission off and a nonempty parent key, the field loop
over an entirely-zero struct skips every field and changes nothing. -/
theorem encodeStructLoop_zero (hcode : List Char) :
    ∀ (fuel : Nat) (whole fields : RFields) (depth : Nat) (pk : List Char)
      (st : ESt) (last : List Char) (op : Bool),
      isZeroFields whole = true → pk.isEmpty = false →
      encodeStructLoop 0 hcode fuel whole fields depth pk st last op = (st, op) := by
  intro fuel
  induction fuel with
  | zero => intro whole fields depth pk st last op hz hpk; rfl
  | succ n ih =>
    intro whole fields depth pk st last op hz hpk
    match fields with
    | .fnil => rfl
    | .fcons name fv rest =>
      unfold encodeStructLoop
      cases hpub : isPublic name
      · simp only [hpub, Bool.not_false, if_true]
        exact ih whole rest depth pk st last op hz hpk
      · simp only [hpub, Bool.not_true, Bool.false_eq_true, if_false]
        rw [if_pos (by
          rw [hpk, show isOption ENCODE_ZERO_VALUES 0 = false from rfl]
          show (!false && (!false && isZeroStruct (.vstruct whole))) = true
          rw [show isZeroStruct (.vstruct whole) = isZeroFields whole from rfl, hz]
          rfl)]
        exact ih whole rest depth pk st last op hz hpk

/-- C9 counterexample: a nested nonempty map all of whose members are
suppressed zero values produces the empty block `M = {` / `}` — not "no
output at all" as claimed. -/
theorem C9_counterexample :
    Encode (.vstruct (.fcons "M".data (.vmap (.fcons "a".data (.vint 0) .fnil)) .fnil)) =
      ("M = \x7b\n\x7d\n".data, []) := by decide

set_option maxHeartbeats 4000000 in
/-- C9 (amended): an *empty* map container emits nothing; an entirely-zero
nested struct (zero emission off) emits nothing; but a *nonempty* map
container with a fresh nonempty parent key opens its brace block exactly
once regardless of member emission — a map of all-zero members emits
exactly `key = {` and `}` with nothing between, as the four-member concrete
encode also shows (one block, not four). -/
theorem C9_container_blocks :
    (∀ (opts : Nat) (hcode : List Char) (fuel depth : Nat) (pk : List Char) (st : ESt),
      encodeMapE opts hcode (fuel + 1) .fnil depth pk st = st) ∧
    (∀ (hcode : List Char) (fuel : Nat) (fs : RFields) (depth : Nat)
       (pk : List Char) (st : ESt),
      isZeroFields fs = true → pk.isEmpty = false →
      encodeStructE 0 hcode (fuel + 1) fs depth pk st = st) ∧
    (∀ (hcode : List Char) (fuel : Nat) (es : RFields) (ky : List Char)
       (rest : List (List Char)) (depth : Nat) (pk : List Char) (st : ESt),
      sortKeys es = ky :: rest →
      (∀ k ∈ sortKeys es, mapIndex es k = .vint 0) →
      pk.isEmpty = false → pk ≠ st.prev →
      encodeMapE 0 hcode (fuel + 2) es depth pk st =
        { prev := pk,
          out := st.out ++ List.replicate ((depth - 1) * 2) ' ' ++ pk ++ " = \x7b\n".data
                 ++ List.replicate ((depth - 1) * 2) ' ' ++ "\x7d\n".data,
          errs := st.errs }) ∧
    Encode (.vstruct (.fcons "M".data
        (.vmap (.fcons "a".data (.vint 0)
          (.fcons "b".data (.vint 0)
            (.fcons "c".data (.vint 0)
              (.fcons "d".data (.vint 0) .fnil))))) .fnil)) =
      ("M = \x7b\n\x7d\n".data, []) := by
  refine ⟨?_, ?_, ?_, by decide⟩
  · intro opts hcode fuel depth pk st
    cases fuel
    · rfl
    · rfl
  · intro hcode fuel fs depth pk st hz hpk
    unfold encodeStructE
    rw [encodeStructLoop_zero hcode fuel fs fs depth pk st [] false hz hpk]
    rfl
  · intro hcode fuel es ky rest depth pk st hsort hall hpk hprev
    have hne : pk ≠ [] := by
      intro hc
      rw [hc] at hpk
      cases hpk
    unfold encodeMapE
    rw [hsort]
    unfold encodeMapLoop
    rw [show (isOption ENCODE_ZERO_VALUES 0 && isZeroStruct (.vmap es)) = false by
      rw [show isOption ENCODE_ZERO_VALUES 0 = false from rfl, Bool.false_and]]
    simp only [Bool.not_false, if_true]
    have hcond : (pk ≠ st.prev && (([] : List Char) ≠ pk)) = true := by
      simp only [Bool.and_eq_true, decide_eq_true_eq, ne_eq]
      exact ⟨hprev, fun h => hne h.symm⟩
    rw [if_pos hcond]
    rw [hall ky (hsort ▸ List.mem_cons_self ky rest), encodeTraverse_vint_zero]
    rw [encodeMapLoop_prev hcode fuel es rest depth pk
      (write_kv 0 depth pk ['{'] { st with prev := pk }) pk true (by rfl)
      (fun k hk => hall k (hsort ▸ List.mem_cons_of_mem _ hk))]
    rw [if_pos (by simp [hpk])]
    unfold write_kv ewrite
    simp [setKeyCase, isOption, List.append_assoc]
    rw [if_neg (by decide), if_neg (by decide)]

/-- Witness for C9: the empty-map part at a concrete state, the zero-struct
part for a one-field zero struct, and the block part for the singleton
all-zero map under the key `M`. -/
theorem C9_container_blocks_witness :
    encodeMapE 0 [] 5 .fnil 1 "M".data ⟨[], [], []⟩ = ⟨[], [], []⟩ ∧
    encodeStructE 0 [] 5 (.fcons "I".data (.vint 0) .fnil) 1 "N".data ⟨[], [], []⟩ =
      ⟨[], [], []⟩ ∧
    encodeMapE 0 [] 5 (.fcons "a".data (.vint 0) .fnil) 1 "M".data ⟨[], [], []⟩ =
      ⟨"M".data, "M = \x7b\n\x7d\n".data, []⟩ :=
  ⟨C9_container_blocks.1 0 [] 4 1 "M".data ⟨[], [], []⟩,
   C9_container_blocks.2.1 [] 4 (.fcons "I".data (.vint 0) .fnil) 1 "N".data
     ⟨[], [], []⟩ (by decide) (by decide),
   C9_container_blocks.2.2.1 [] 3 (.fcons "a".data (.vint 0) .fnil) "a".data [] 1
     "M".data ⟨[], [], []⟩ (by decide)
     (by
       intro k hk
       have hk' : k = "a".data := by
         simpa [sortKeys, RFields.keys, insertSorted] using hk
       rw [hk']
       rfl)
     (by decide) (by decide)⟩

/-- C10: for a string-keyed map destination, `NewDecoder` returns before
the option-validation block, so any options (even `PARSE_LOWER_CASE`, which
panics for a struct destination) are silently ignored and the stored
options word stays 0. -/
theorem C10_map_dest_ignores_options :
    (∀ options : List Nat, NewDecoder (.mapDest true) options = .ok ⟨true, 0⟩) ∧
    NewDecoder .structPtr [PARSE_LOWER_CASE] = .error "Option not allowed" :=
  ⟨fun _ => rfl, rfl⟩

end Config
